import Mathlib

/-!
Verification of the EZ-EMFI probe-driver core against its specification.

The numeric conversion and register-packing functions are translated from
the Python sources (`tests/volo_bram_loader_tests/volo_bram_loader_constants.py`,
`tools/deploy_ds1140_pd.py`, `examples/test_fsm_example.py`).  The tick-level
components (TelemetryEncoder, RegisterGateway, BulkLoader, ProbeDriverFSM)
exist in the repository only as VHDL referenced by the cocotb tests, so they
are modelled from the specification, with the test files pinning down the
register-level protocol details.
-/

/-- Python `round` (banker's rounding, ties to even) on a rational. -/
def pyRound (q : ℚ) : ℤ :=
  if Int.fract q < 1/2 then ⌊q⌋
  else if 1/2 < Int.fract q then ⌊q⌋ + 1
  else if ⌊q⌋ % 2 = 0 then ⌊q⌋ else ⌊q⌋ + 1

/-- Python `int()` applied to a float: truncation toward zero. -/
def ratTrunc (q : ℚ) : ℤ :=
  if 0 ≤ q then ⌊q⌋ else ⌈q⌉

/-- Clamp a digital value to the signed 16-bit range `[-32768, 32767]`. -/
def clamp16 (d : ℤ) : ℤ := max (-32768) (min 32767 d)

/-- From `tests/volo_bram_loader_tests/volo_bram_loader_constants.py`:
`digital = round(voltage * 32768.0 / 5.0)` clamped to `[-32768, 32767]`. -/
def voltage_to_digital (v : ℚ) : ℤ := clamp16 (pyRound (v * 32768 / 5))

/-- From `tests/volo_bram_loader_tests/volo_bram_loader_constants.py`:
`(digital * 5.0) / 32768.0`. -/
def digital_to_voltage (d : ℤ) : ℚ := (d : ℚ) * 5 / 32768

/-- From `tools/deploy_ds1140_pd.py` (`DS1140Registers.voltage_to_raw`):
`int((voltage / 5.0) * 32767.0) & 0xFFFF`.  Python's `&` on a negative int
is arithmetic mod `2^16`, which is `Int.emod`. -/
def voltage_to_raw (v : ℚ) : ℤ := ratTrunc (v / 5 * 32767) % 65536

/-- From `tools/deploy_ds1140_pd.py` (`DS1140Registers.raw_to_voltage`):
values above 32767 are re-interpreted as negative two's-complement, then
scaled by `5 / 32767`. -/
def raw_to_voltage (raw : ℤ) : ℚ :=
  ((if 32767 < raw then raw - 65536 else raw : ℤ) : ℚ) * 5 / 32767

/-- From `tools/deploy_ds1140_pd.py` (`DS1140Registers.pack_16bit_register`):
`(value & 0xFFFF) << 16`. -/
def pack_16bit_register (v : ℕ) : ℕ := (v % 65536) * 65536

/-- From `tools/deploy_ds1140_pd.py` (`DS1140Registers.pack_8bit_register`):
`(value & 0xFF) << 24`. -/
def pack_8bit_register (v : ℕ) : ℕ := (v % 256) * 16777216

/-- From `tools/deploy_ds1140_pd.py` (`DS1140Registers.pack_button`):
`0x80000000 if pressed else 0x00000000`. -/
def pack_button (pressed : Bool) : ℕ := if pressed then 0x80000000 else 0

/-- The 16-bit field carried in bits `[31:16]` of a 32-bit register word. -/
def field16 (reg : ℕ) : ℕ := reg / 65536 % 65536

/-- The 8-bit field carried in bits `[31:24]` of a 32-bit register word. -/
def field8 (reg : ℕ) : ℕ := reg / 16777216 % 256

/-- Bit 31 of a 32-bit register word (the button bit). -/
def bit31 (reg : ℕ) : ℕ := reg / 2147483648 % 2

/-- From `tests/ds1120_pd_tests/ds1120_pd_constants.py`: `VOLTAGE_3V0 = 0x4CCD`,
the maximum-intensity safety limit. -/
def VOLTAGE_3V0 : ℤ := 0x4CCD

/-- From `examples/test_fsm_example.py` (`calculate_expected_voltage`): the
expected observer voltage for a state index under automatic spreading. -/
def calculate_expected_voltage (state_index : ℕ) (num_normal_states : ℕ)
    (v_min v_max : ℚ) : ℚ :=
  (if 1 < num_normal_states then
    v_min + state_index * ((v_max - v_min) / ((num_normal_states : ℚ) - 1))
  else v_min + state_index * 0)

/-- Modelled from the spec: `TelemetryConfig` of §3 (the fsm_observer VHDL
generics; the VHDL itself is not in the repository sources). -/
structure TelemetryConfig where
  numStates : ℕ
  valueMin : ℚ
  valueMax : ℚ
  faultThreshold : ℕ
deriving DecidableEq

/-- Modelled from the spec: the encoder's value spacing,
`(value_max - value_min) / (normal_count - 1)` when `normal_count > 1`, else 0. -/
def TelemetryConfig.step (cfg : TelemetryConfig) : ℚ :=
  if 1 < cfg.faultThreshold then
    (cfg.valueMax - cfg.valueMin) / ((cfg.faultThreshold : ℚ) - 1)
  else 0

/-- Modelled from the spec: `sample(state_code, cfg, &mut prev_value)` of §4.1
(the fsm_observer VHDL is not in the repository sources).  Returns the
telemetry value together with the updated `prev_value` latch: out-of-range
codes give the failsafe 0, normal codes give `value_min + code * step` and
latch it, fault codes give the sign-flipped latch and leave it untouched. -/
def sample (cfg : TelemetryConfig) (code : ℕ) (prev : ℚ) : ℚ × ℚ :=
  if cfg.numStates ≤ code then (0, prev)
  else if code < cfg.faultThreshold then
    (cfg.valueMin + code * cfg.step, cfg.valueMin + code * cfg.step)
  else (-prev, prev)

/-- Threading `sample` through a list of state codes, collecting the outputs
and the final latch. -/
def runSample (cfg : TelemetryConfig) (prev : ℚ) : List ℕ → List ℚ × ℚ
  | [] => ([], prev)
  | c :: cs =>
    let r := sample cfg c prev
    let rest := runSample cfg r.2 cs
    (r.1 :: rest.1, rest.2)

/-- The RegisterGateway's configuration fields (spec §3). -/
inductive GWField
  | armTimeout
  | firingDuration
  | coolingDuration
  | triggerThreshold
  | commandedOutput
  | clockDivider
  | wordCount
deriving DecidableEq

/-- Modelled from the spec: the RegisterGateway of §4.2 holds a shadow copy
and an active copy of every field (the shim-layer VHDL exercised by
`tests/test_handshake_shim_progressive.py` is not in the repository sources). -/
structure Gateway where
  shadow : GWField → ℕ
  active : GWField → ℕ

/-- Modelled from the spec: `write(field, raw_value)` updates only the shadow copy. -/
def gwWrite (g : Gateway) (f : GWField) (v : ℕ) : Gateway :=
  { g with shadow := fun x => if x = f then v else g.shadow x }

/-- Apply a batch of external writes arriving before one tick's commit step. -/
def gwApplyWrites (g : Gateway) : List (GWField × ℕ) → Gateway
  | [] => g
  | (f, v) :: ws => gwApplyWrites (gwWrite g f v) ws

/-- Modelled from the spec: one gateway tick — the writes land in the shadow
copy, and `commit()` copies the whole shadow set to the active set exactly
when the gate is open. -/
def gwTick (g : Gateway) (ws : List (GWField × ℕ)) (gate : Bool) : Gateway :=
  let g' := gwApplyWrites g ws
  if gate then { shadow := g'.shadow, active := g'.shadow } else g'

/-- Run the gateway over a sequence of ticks, each carrying its write batch
and gate level. -/
def gwRun (g : Gateway) : List (List (GWField × ℕ) × Bool) → Gateway
  | [] => g
  | (ws, gate) :: rest => gwRun (gwTick g ws gate) rest

/-- BulkLoader FSM states, from
`tests/volo_bram_loader_tests/volo_bram_loader_constants.py` (`FSMStates`):
IDLE 0, LOADING 1, DONE 2, RESERVED/FAULT 3. -/
inductive BLState
  | IDLE
  | LOADING
  | DONE
  | FAULT
deriving DecidableEq

/-- From `tests/volo_bram_loader_tests/volo_bram_loader_constants.py`
(`ControlBits.ADDR_MASK = 0x00000FFF`): the Control11 address field is
12 bits wide. -/
def ADDR_MASK : ℕ := 0xFFF

/-- The address actually presented to the BRAM: the Control11 field truncated
by `ADDR_MASK` (keeping its low 12 bits). -/
def bramAddr (a : ℕ) : ℕ := a % (ADDR_MASK + 1)

/-- Inputs consumed by the BulkLoader each tick (spec §4.3; Control10-Control13
in `tests/test_volo_bram_loader_progressive.py`). -/
structure BLIn where
  reset : Bool
  start : Bool
  wordCount : ℕ
  addr : ℕ
  data : ℕ
  strobe : Bool

/-- Modelled from the spec: the BulkLoader's control state plus its backing
memory (the volo_bram_loader VHDL is not in the repository sources; the
cocotb tests pin down the register protocol, including the 12-bit address). -/
structure BL where
  st : BLState
  target : ℕ
  written : ℕ
  prevStrobe : Bool
  mem : ℕ → ℕ

/-- Initial loader state: IDLE with an all-zero memory. -/
def blInit : BL := ⟨.IDLE, 0, 0, false, fun _ => 0⟩

/-- Reaction to a `start` pulse: `word_count = 0` completes immediately
(straight to DONE, no strobe needed), otherwise enter LOADING. -/
def blStart (s : BL) (i : BLIn) : BL :=
  if i.wordCount = 0 then
    { s with st := .DONE, target := 0, written := 0, prevStrobe := i.strobe }
  else
    { s with st := .LOADING, target := i.wordCount, written := 0, prevStrobe := i.strobe }

/-- Modelled from the spec: one BulkLoader tick (§4.3).  `reset` clears only
the control state (memory contents persist, spec §3); in LOADING each rising
edge of the write strobe stores `data` at the masked address and bumps the
words-written counter, moving to DONE when it reaches the target. -/
def blTick (s : BL) (i : BLIn) : BL :=
  if i.reset then { blInit with mem := s.mem }
  else match s.st with
  | .IDLE => if i.start then blStart s i else { s with prevStrobe := i.strobe }
  | .LOADING =>
    if i.strobe && !s.prevStrobe then
      let a := bramAddr i.addr
      let w := s.written + 1
      if s.target ≤ w then
        { s with st := .DONE, written := w, prevStrobe := i.strobe,
                 mem := fun n => if n = a then i.data else s.mem n }
      else
        { s with written := w, prevStrobe := i.strobe,
                 mem := fun n => if n = a then i.data else s.mem n }
    else { s with prevStrobe := i.strobe }
  | .DONE => if i.start then blStart s i else { s with prevStrobe := i.strobe }
  | .FAULT => { s with prevStrobe := i.strobe }

/-- The loader's `done` output: true exactly while in DONE. -/
def blDone (s : BL) : Bool := s.st = .DONE

/-- Run the loader over a list of per-tick inputs. -/
def blRun (s : BL) : List BLIn → BL
  | [] => s
  | i :: is => blRun (blTick s i) is

/-- Input tick carrying a `start` pulse with the given word count. -/
def startPulse (n : ℕ) : BLIn := ⟨false, true, n, 0, 0, false⟩

/-- Input tick asserting the write strobe with the given address and data. -/
def strobeIn (a d : ℕ) : BLIn := ⟨false, false, 0, a, d, true⟩

/-- Idle input tick (strobe released), giving the next strobe a rising edge. -/
def gapIn : BLIn := ⟨false, false, 0, 0, 0, false⟩

/-- A train of `n` write-strobe events, each a strobe tick followed by a
release tick (the protocol used by `write_word` in the cocotb tests). -/
def strobeList : ℕ → List BLIn
  | 0 => []
  | n + 1 => strobeIn 0 0 :: gapIn :: strobeList n

/-- ProbeDriverFSM states, from `tools/deploy_ds1140_pd.py` (`DS1140States`):
READY 0, ARMED 1, FIRING 2, COOLING 3, DONE 4, TIMEDOUT 5, HARDFAULT 7. -/
inductive PDState
  | READY
  | ARMED
  | FIRING
  | COOLING
  | DONE
  | TIMEDOUT
  | HARDFAULT
deriving DecidableEq

/-- The explicit state codes of `DS1140States` (code 6 reserved/unused). -/
def PDState.code : PDState → ℕ
  | .READY => 0
  | .ARMED => 1
  | .FIRING => 2
  | .COOLING => 3
  | .DONE => 4
  | .TIMEDOUT => 5
  | .HARDFAULT => 7

/-- Committed configuration fields consumed by the ProbeDriverFSM (spec §4.4). -/
structure PDConfig where
  armTimeout : ℕ
  firingDuration : ℕ
  coolingDuration : ℕ
  triggerThreshold : ℚ
  commandedOutput : ℚ
  clockDivider : ℕ

/-- Per-tick inputs of the ProbeDriverFSM. -/
structure PDInput where
  reset : Bool
  arm : Bool
  forceFire : Bool
  trigger : ℚ
  hardFault : Bool

/-- Modelled from the spec: the ProbeDriverFSM's control state (the
ds1140_pd_fsm VHDL is not in the repository sources): current state plus the
arm-timeout counter, the divided duration counter and the divider phase. -/
structure PDFsm where
  state : PDState
  armCount : ℕ
  durCount : ℕ
  divCount : ℕ
deriving DecidableEq

/-- Initial FSM state: READY with all counters cleared. -/
def initPD : PDFsm := ⟨.READY, 0, 0, 0⟩

/-- The spec's hard safety limit on the driven output magnitude: 3.0 V. -/
def MAX_SAFE_OUTPUT : ℚ := 3

/-- Advance a duration counter in FIRING/COOLING.  `clock_divider` (0..15 ⇒
divide-by 1..16) scales only these counters (spec §4.4): the divider phase
must wrap before the divided count advances. -/
def advanceDur (s : PDFsm) (cfg : PDConfig) (duration : ℕ) (next : PDState) : PDFsm :=
  if cfg.clockDivider ≤ s.divCount then
    if duration ≤ s.durCount + 1 then ⟨next, 0, 0, 0⟩
    else ⟨s.state, s.armCount, s.durCount + 1, 0⟩
  else ⟨s.state, s.armCount, s.durCount, s.divCount + 1⟩

/-- Modelled from the spec: one ProbeDriverFSM transition (§4.4).  `reset` has
priority over every outgoing transition (§5); HARDFAULT and TIMEDOUT are
sticky, accepting no input but `reset` (§4.4); in the remaining states an
asserted hard-fault condition wins over the normal transition. -/
def pdTick (cfg : PDConfig) (s : PDFsm) (i : PDInput) : PDFsm :=
  if i.reset then initPD
  else match s.state with
  | .HARDFAULT => s
  | .TIMEDOUT => s
  | .READY =>
    if i.hardFault then { s with state := .HARDFAULT }
    else if i.arm then ⟨.ARMED, 0, 0, 0⟩
    else s
  | .ARMED =>
    if i.hardFault then { s with state := .HARDFAULT }
    else if cfg.triggerThreshold ≤ i.trigger || i.forceFire then ⟨.FIRING, 0, 0, 0⟩
    else if cfg.armTimeout ≤ s.armCount + 1 then { s with state := .TIMEDOUT }
    else { s with armCount := s.armCount + 1 }
  | .FIRING =>
    if i.hardFault then { s with state := .HARDFAULT }
    else advanceDur s cfg cfg.firingDuration .COOLING
  | .COOLING =>
    if i.hardFault then { s with state := .HARDFAULT }
    else advanceDur s cfg cfg.coolingDuration .DONE
  | .DONE =>
    if i.hardFault then { s with state := .HARDFAULT } else s

/-- One FSM tick together with the driven output of that tick.  Modelled from
the spec: the driven output magnitude is `min(commanded_output,
MAX_SAFE_OUTPUT)`, computed every tick independently of the FSM state. -/
def pdTickOut (cfg : PDConfig) (s : PDFsm) (i : PDInput) : PDFsm × ℚ :=
  (pdTick cfg s i, min cfg.commandedOutput MAX_SAFE_OUTPUT)

/-- Run the FSM over a list of per-tick inputs. -/
def pdRun (cfg : PDConfig) (s : PDFsm) : List PDInput → PDFsm
  | [] => s
  | i :: is => pdRun cfg (pdTick cfg s i) is

/-- The DS1140-PD observer configuration, from the `DS1140Voltages` table of
`tools/deploy_ds1140_pd.py`: NUM_STATES 8, V_MIN 0.0, V_MAX 2.5, six normal
states (0-5, step 0.5 V), HARDFAULT (7) sign-flipped. -/
def ds1140Cfg : TelemetryConfig := ⟨8, 0, 5/2, 6⟩

/-- The combined DS1140-PD system state: the FSM, its private observer latch
and the telemetry value produced at the last tick. -/
structure DS1140Sys where
  fsm : PDFsm
  prev : ℚ
  tele : ℚ
deriving DecidableEq

/-- Initial system state: READY, observer sampled once on the initial state. -/
def sysInit : DS1140Sys :=
  ⟨initPD, (sample ds1140Cfg initPD.state.code 0).2, (sample ds1140Cfg initPD.state.code 0).1⟩

/-- One system tick: the FSM steps, then its new state code feeds the
observer (spec §4.4 side effect). -/
def sysTick (cfg : PDConfig) (s : DS1140Sys) (i : PDInput) : DS1140Sys :=
  let f := pdTick cfg s.fsm i
  let r := sample ds1140Cfg f.state.code s.prev
  ⟨f, r.2, r.1⟩

/-- Run the combined system over a list of per-tick inputs. -/
def sysRun (cfg : PDConfig) (s : DS1140Sys) : List PDInput → DS1140Sys
  | [] => s
  | i :: is => sysRun cfg (sysTick cfg s i) is

/-- An input tick asserting only the hard-fault condition. -/
def hfIn : PDInput := ⟨false, false, false, 0, true⟩

/-- An input tick asserting only the arm pulse. -/
def armIn : PDInput := ⟨false, true, false, 0, false⟩

/-- An input tick asserting only the force-fire pulse. -/
def fireIn : PDInput := ⟨false, false, true, 0, false⟩

/-- An input tick asserting only the reset pulse. -/
def resetIn : PDInput := ⟨true, false, false, 0, false⟩

/-- A concrete test configuration (P1 values of
`tests/ds1140_pd_tests/ds1140_pd_constants.py`: short durations, default
threshold 2.4 V, default intensity 2.0 V). -/
def testCfg : PDConfig := ⟨10, 4, 4, 12/5, 2, 0⟩

/-- Telemetry invariant of the combined DS1140 system: the observer latch
always holds one of the normal-state voltages (so it lies in `[0, 5/2]`),
in every non-HARDFAULT state the telemetry is the state's stair-step value
`code * 0.5` (and is what the latch holds), and in HARDFAULT the telemetry
is the sign-flipped latch. -/
def SysInv (s : DS1140Sys) : Prop :=
  0 ≤ s.prev ∧ s.prev ≤ 5/2 ∧
  (s.fsm.state ≠ .HARDFAULT → s.tele = (s.fsm.state.code : ℚ) * (1/2) ∧ s.prev = s.tele) ∧
  (s.fsm.state = .HARDFAULT → s.tele = -s.prev)

theorem pyRound_sub_le (q : ℚ) : |(pyRound q : ℚ) - q| ≤ 1/2 := by
  have h0 : (0:ℚ) ≤ Int.fract q := Int.fract_nonneg q
  have h1 : Int.fract q < 1 := Int.fract_lt_one q
  have hf : (⌊q⌋ : ℚ) = q - Int.fract q := by
    have := Int.self_sub_fract q
    linarith [Int.self_sub_fract q]
  unfold pyRound
  split_ifs with ha hb hc <;> rw [abs_le] <;> constructor <;> push_cast <;>
    rw [hf] <;> linarith

theorem ratTrunc_sub_le (q : ℚ) : |(ratTrunc q : ℚ) - q| ≤ 1 := by
  unfold ratTrunc
  split_ifs with h
  · have h1 : (⌊q⌋ : ℚ) ≤ q := Int.floor_le q
    have h2 : q - 1 < ⌊q⌋ := Int.sub_one_lt_floor q
    rw [abs_le]; constructor <;> linarith
  · have h1 : q ≤ (⌈q⌉ : ℚ) := Int.le_ceil q
    have h2 : (⌈q⌉ : ℚ) < q + 1 := Int.ceil_lt_add_one q
    rw [abs_le]; constructor <;> linarith

theorem emod_recover (t : ℤ) (h1 : -32767 ≤ t) (h2 : t ≤ 32767) :
    (if 32767 < t % 65536 then t % 65536 - 65536 else t % 65536 : ℤ) = t := by
  split_ifs with h <;> omega

/-- Claim C9: for every telemetry value within the ±5 V full-scale range, the
digital encoding and the physical value are mutually derivable within one
quantization step: decoding the encoding of `v` differs from `v` by at most
one step, both for the volo encoding (`round`, scale 32768, clamped) and for
the deploy-script encoding (truncation, scale 32767, 16-bit masked). -/
theorem C9_conversion_roundtrip (v : ℚ) (hl : -5 ≤ v) (hr : v ≤ 5) :
    |digital_to_voltage (voltage_to_digital v) - v| ≤ 5/32768 ∧
    |raw_to_voltage (voltage_to_raw v) - v| ≤ 5/32767 := by
  constructor
  · set x : ℚ := v * 32768 / 5 with hx
    have hx1 : x ≤ 32768 := by rw [hx, div_le_iff₀ (by norm_num : (0:ℚ) < 5)]; nlinarith
    have hx2 : -32768 ≤ x := by
      rw [hx, le_div_iff₀ (by norm_num : (0:ℚ) < 5)]; nlinarith
    set d0 : ℤ := pyRound x with hd0
    have hb := pyRound_sub_le x
    rw [← hd0] at hb
    have habs := abs_le.mp hb
    have hlow : -32768 ≤ d0 := by
      by_contra hcon
      push_neg at hcon
      have h9 : d0 ≤ -32769 := by omega
      have h9q : (d0:ℚ) ≤ -32769 := by exact_mod_cast h9
      linarith [habs.1]
    have hveq : digital_to_voltage d0 - v = ((d0:ℚ) - x) * (5/32768) := by
      have hv : x * 5 / 32768 = v := by rw [hx]; field_simp
      rw [digital_to_voltage, ← hv]; ring
    rcases le_or_lt d0 32767 with hc | hc
    · have hcl : voltage_to_digital v = d0 := by
        unfold voltage_to_digital clamp16
        rw [← hx, ← hd0, min_eq_right hc, max_eq_right hlow]
      rw [hcl, hveq, abs_mul]
      have h5 : |(5:ℚ)/32768| = 5/32768 := by rw [abs_of_pos]; norm_num
      rw [h5]
      nlinarith [abs_nonneg ((d0:ℚ) - x), hb]
    · have hup : d0 ≤ 32768 := by
        by_contra hcon
        push_neg at hcon
        have h9 : (32769:ℤ) ≤ d0 := by omega
        have h9q : (32769:ℚ) ≤ (d0:ℚ) := by exact_mod_cast h9
        linarith [habs.2]
      have hd : d0 = 32768 := by omega
      have hcl : voltage_to_digital v = 32767 := by
        unfold voltage_to_digital clamp16
        rw [← hx, ← hd0, hd]
        norm_num
      have hxlb : (32767:ℚ) + 1/2 ≤ x := by
        have : (d0:ℚ) = 32768 := by exact_mod_cast hd
        linarith [habs.2]
      have hveq2 : digital_to_voltage 32767 - v = ((32767:ℚ) - x) * (5/32768) := by
        have hv : x * 5 / 32768 = v := by rw [hx]; field_simp
        rw [digital_to_voltage, ← hv]; push_cast; ring
      rw [hcl, hveq2, abs_mul]
      have h5 : |(5:ℚ)/32768| = 5/32768 := by rw [abs_of_pos]; norm_num
      rw [h5]
      have habs2 : |(32767:ℚ) - x| ≤ 1 := by
        rw [abs_le]; constructor <;> linarith
      nlinarith [abs_nonneg ((32767:ℚ) - x)]
  · set y : ℚ := v / 5 * 32767 with hy
    have hy1 : y ≤ 32767 := by rw [hy]; nlinarith
    have hy2 : -32767 ≤ y := by rw [hy]; nlinarith
    set t : ℤ := ratTrunc y with ht
    have hb := ratTrunc_sub_le y
    rw [← ht] at hb
    have habs := abs_le.mp hb
    have htb : -32767 ≤ t ∧ t ≤ 32767 := by
      rw [ht]
      unfold ratTrunc
      split_ifs with h
      · constructor
        · have : (0:ℤ) ≤ ⌊y⌋ := Int.floor_nonneg.mpr h
          omega
        · have : (⌊y⌋:ℚ) ≤ y := Int.floor_le y
          have : (⌊y⌋:ℚ) ≤ 32767 := by linarith
          exact_mod_cast this
      · constructor
        · have : y ≤ (⌈y⌉:ℚ) := Int.le_ceil y
          have : (-32767:ℚ) ≤ (⌈y⌉:ℚ) := by linarith
          exact_mod_cast this
        · have : ⌈y⌉ ≤ (0:ℤ) := Int.ceil_le.mpr (by push_cast; linarith)
          omega
    have hs : raw_to_voltage (voltage_to_raw v) = (t:ℚ) * 5 / 32767 := by
      unfold raw_to_voltage voltage_to_raw
      rw [← hy, ← ht, emod_recover t htb.1 htb.2]
    rw [hs]
    have hveq : (t:ℚ) * 5 / 32767 - v = ((t:ℚ) - y) * (5/32767) := by
      have hv : y * 5 / 32767 = v := by rw [hy]; field_simp
      rw [← hv]; ring
    rw [hveq, abs_mul]
    have h5 : |(5:ℚ)/32767| = 5/32767 := by rw [abs_of_pos]; norm_num
    rw [h5]
    nlinarith [abs_nonneg ((t:ℚ) - y)]

theorem C9_conversion_roundtrip_witness :
    |digital_to_voltage (voltage_to_digital 1) - 1| ≤ 5/32768 ∧
    |raw_to_voltage (voltage_to_raw 1) - 1| ≤ 5/32767 :=
  C9_conversion_roundtrip 1 (by norm_num) (by norm_num)

/-- Claim C10: every 16-bit field packed by `pack_16bit_register` is carried
in bits [31:16] of the register word with the low half clear, every 8-bit
field packed by `pack_8bit_register` in bits [31:24], and the button pulses
are asserted by bit 31 alone (`0x80000000` asserts, 0 deasserts); bits below
a field never affect the extracted field value. -/
theorem C10_register_packing (v low : ℕ) :
    (low < 65536 → field16 (pack_16bit_register v + low) = v % 65536) ∧
    pack_16bit_register v % 65536 = 0 ∧
    (low < 16777216 → field8 (pack_8bit_register v + low) = v % 256) ∧
    (low < 2147483648 → bit31 (pack_button true + low) = 1) ∧
    bit31 (pack_button false) = 0 ∧
    pack_button true = 0x80000000 := by
  unfold field16 field8 bit31 pack_16bit_register pack_8bit_register pack_button
  refine ⟨fun h => ?_, ?_, fun h => ?_, fun h => ?_, ?_, rfl⟩ <;>
    first
      | omega
      | (norm_num
         omega)
      | norm_num

theorem C10_register_packing_witness :
    field16 (pack_16bit_register 0x1234 + 7) = 0x1234 ∧
    field8 (pack_8bit_register 0xAB + 99) = 0xAB ∧
    bit31 (pack_button true + 12345) = 1 := by
  refine ⟨?_, ?_, ?_⟩
  · have h := (C10_register_packing 0x1234 7).1 (by norm_num)
    simpa using h
  · have h := (C10_register_packing 0xAB 99).2.2.1 (by norm_num)
    simpa using h
  · exact (C10_register_packing 0 12345).2.2.2.1 (by norm_num)

/-- Claim C1: the ProbeDriverFSM's driven output magnitude equals
`min(commanded_output, MAX_SAFE_OUTPUT)` on every tick, in every state
(the state and input are universally quantified, so this includes FIRING
and every transition): commanding above the limit drives exactly
`MAX_SAFE_OUTPUT`, whose digital code is `0x4CCD` under the repository's
voltage conversion. -/
theorem C1_safety_clamp (cfg : PDConfig) (s : PDFsm) (i : PDInput) :
    (pdTickOut cfg s i).2 = min cfg.commandedOutput MAX_SAFE_OUTPUT ∧
    (MAX_SAFE_OUTPUT < cfg.commandedOutput → (pdTickOut cfg s i).2 = MAX_SAFE_OUTPUT) ∧
    voltage_to_digital MAX_SAFE_OUTPUT = VOLTAGE_3V0 := by
  refine ⟨rfl, fun h => ?_, ?_⟩
  · show min cfg.commandedOutput MAX_SAFE_OUTPUT = MAX_SAFE_OUTPUT
    exact min_eq_right (le_of_lt h)
  · norm_num [voltage_to_digital, clamp16, pyRound, Int.fract, VOLTAGE_3V0, MAX_SAFE_OUTPUT]

theorem C1_safety_clamp_witness :
    (pdTickOut ⟨10, 4, 4, 12/5, 4, 0⟩ ⟨.FIRING, 0, 0, 0⟩ fireIn).2 = MAX_SAFE_OUTPUT :=
  (C1_safety_clamp ⟨10, 4, 4, 12/5, 4, 0⟩ ⟨.FIRING, 0, 0, 0⟩ fireIn).2.1
    (by norm_num [MAX_SAFE_OUTPUT])

/-- Claim C2: for every TelemetryConfig with `fault_threshold ≥ 2` (and the
§3 invariant `fault_threshold ≤ num_states`), the value spacing is
`(value_max - value_min) / (fault_threshold - 1)` and sampling the last
normal state code returns exactly `value_max`; the repository's
`calculate_expected_voltage` satisfies the same identity. -/
theorem C2_encoder_spacing (cfg : TelemetryConfig) (prev : ℚ)
    (h2 : 2 ≤ cfg.faultThreshold) (hn : cfg.faultThreshold ≤ cfg.numStates) :
    cfg.step = (cfg.valueMax - cfg.valueMin) / ((cfg.faultThreshold : ℚ) - 1) ∧
    (sample cfg (cfg.faultThreshold - 1) prev).1 = cfg.valueMax ∧
    (∀ n : ℕ, ∀ vmin vmax : ℚ, 2 ≤ n →
      calculate_expected_voltage (n - 1) n vmin vmax = vmax) := by
  have hq : (2:ℚ) ≤ (cfg.faultThreshold : ℚ) := by exact_mod_cast h2
  have hne : ((cfg.faultThreshold : ℚ) - 1) ≠ 0 := by linarith
  have hstep : cfg.step = (cfg.valueMax - cfg.valueMin) / ((cfg.faultThreshold : ℚ) - 1) := by
    unfold TelemetryConfig.step
    rw [if_pos (by omega : 1 < cfg.faultThreshold)]
  refine ⟨hstep, ?_, ?_⟩
  · unfold sample
    rw [if_neg (by omega : ¬ cfg.numStates ≤ cfg.faultThreshold - 1),
        if_pos (by omega : cfg.faultThreshold - 1 < cfg.faultThreshold)]
    rw [hstep]
    have hcast : ((cfg.faultThreshold - 1 : ℕ) : ℚ) = (cfg.faultThreshold : ℚ) - 1 := by
      push_cast [Nat.cast_sub (by omega : 1 ≤ cfg.faultThreshold)]
      ring
    rw [hcast]
    field_simp
  · intro n vmin vmax hn2
    unfold calculate_expected_voltage
    rw [if_pos (by omega : 1 < n)]
    have hqn : (2:ℚ) ≤ (n : ℚ) := by exact_mod_cast hn2
    have hnen : ((n : ℚ) - 1) ≠ 0 := by linarith
    have hcast : ((n - 1 : ℕ) : ℚ) = (n : ℚ) - 1 := by
      push_cast [Nat.cast_sub (by omega : 1 ≤ n)]
      ring
    rw [hcast]
    field_simp

theorem C2_encoder_spacing_witness :
    (sample ⟨6, 0, 5/2, 6⟩ 5 0).1 = (5:ℚ)/2 := by
  have h := (C2_encoder_spacing ⟨6, 0, 5/2, 6⟩ 0 (by norm_num) (by norm_num)).2.1
  simpa using h

/-- Claim C5: sampling any fault state (`fault_threshold ≤ code < num_states`)
returns exactly the negation of the latched normal value and leaves the
latch untouched, so any run of consecutive fault-state samples (with no
intervening normal state) all return the same value. -/
theorem C5_fault_sign_flip (cfg : TelemetryConfig) (prev : ℚ) (c : ℕ) (codes : List ℕ)
    (hc1 : cfg.faultThreshold ≤ c) (hc2 : c < cfg.numStates)
    (hcs : ∀ x ∈ codes, cfg.faultThreshold ≤ x ∧ x < cfg.numStates) :
    (sample cfg c prev).1 = -prev ∧ (sample cfg c prev).2 = prev ∧
    (runSample cfg prev codes).1 = codes.map (fun _ => -prev) ∧
    (runSample cfg prev codes).2 = prev := by
  have hone : ∀ x, cfg.faultThreshold ≤ x → x < cfg.numStates →
      sample cfg x prev = (-prev, prev) := by
    intro x h1 h2
    unfold sample
    rw [if_neg (not_le.mpr h2), if_neg (not_lt.mpr h1)]
  refine ⟨by rw [hone c hc1 hc2], by rw [hone c hc1 hc2], ?_⟩
  induction codes with
  | nil => simp [runSample]
  | cons x xs ih =>
    have hx := hcs x (List.mem_cons_self x xs)
    have hxs : ∀ y ∈ xs, cfg.faultThreshold ≤ y ∧ y < cfg.numStates := by
      intro y hy
      exact hcs y (List.mem_cons_of_mem x hy)
    have h := ih hxs
    simp only [runSample, hone x hx.1 hx.2, List.map_cons]
    exact ⟨by rw [h.1], h.2⟩

theorem C5_fault_sign_flip_witness :
    (runSample ⟨4, 0, 2, 3⟩ 1 [3, 3]).1 = [-1, -1] := by
  have h := (C5_fault_sign_flip ⟨4, 0, 2, 3⟩ 1 3 [3, 3] (by norm_num) (by norm_num)
    (by intro x hx; fin_cases hx <;> norm_num)).2.2.1
  simpa using h

theorem pdTick_terminal (cfg : PDConfig) (s : PDFsm) (i : PDInput)
    (hs : s.state = .TIMEDOUT ∨ s.state = .HARDFAULT) (hi : i.reset = false) :
    pdTick cfg s i = s := by
  obtain ⟨st, a, d, dv⟩ := s
  rcases hs with h | h <;> (simp only at h; subst h; simp [pdTick, hi])

theorem pdRun_terminal (cfg : PDConfig) (s : PDFsm) (tr : List PDInput)
    (hs : s.state = .TIMEDOUT ∨ s.state = .HARDFAULT)
    (htr : ∀ j ∈ tr, j.reset = false) :
    pdRun cfg s tr = s := by
  induction tr with
  | nil => rfl
  | cons i is ih =>
    have h1 : pdTick cfg s i = s :=
      pdTick_terminal cfg s i hs (htr i (List.mem_cons_self i is))
    simp only [pdRun, h1]
    exact ih (fun j hj => htr j (List.mem_cons_of_mem i hj))

/-- Claim C3: once the ProbeDriverFSM is in HARDFAULT or TIMEDOUT, any trace
of reset-free inputs (arbitrary arm / force-fire / trigger / hard-fault
pressure) leaves it exactly where it was, and a reset pulse returns it to
the initial READY state. -/
theorem C3_sticky_faults (cfg : PDConfig) (s : PDFsm) (tr : List PDInput) (i : PDInput)
    (hs : s.state = .TIMEDOUT ∨ s.state = .HARDFAULT)
    (htr : ∀ j ∈ tr, j.reset = false) (hi : i.reset = true) :
    pdRun cfg s tr = s ∧
    pdTick cfg (pdRun cfg s tr) i = initPD ∧
    initPD.state = .READY := by
  have h1 := pdRun_terminal cfg s tr hs htr
  refine ⟨h1, ?_, rfl⟩
  rw [h1]
  unfold pdTick
  rw [hi]
  simp

theorem C3_sticky_faults_witness :
    pdRun testCfg ⟨.HARDFAULT, 0, 0, 0⟩ [armIn, fireIn] = ⟨.HARDFAULT, 0, 0, 0⟩ ∧
    pdTick testCfg (pdRun testCfg ⟨.HARDFAULT, 0, 0, 0⟩ [armIn, fireIn]) resetIn = initPD :=
  have h := C3_sticky_faults testCfg ⟨.HARDFAULT, 0, 0, 0⟩ [armIn, fireIn] resetIn (Or.inr rfl)
    (by intro j hj; fin_cases hj <;> rfl) rfl
  ⟨h.1, h.2.1⟩


theorem gwApplyWrites_active (g : Gateway) (ws : List (GWField × ℕ)) :
    (gwApplyWrites g ws).active = g.active := by
  induction ws generalizing g with
  | nil => rfl
  | cons w rest ih =>
    obtain ⟨f, v⟩ := w
    simp only [gwApplyWrites]
    rw [ih]
    rfl

theorem gwTick_closed (g : Gateway) (ws : List (GWField × ℕ)) :
    (gwTick g ws false).active = g.active := by
  simp only [gwTick, Bool.false_eq_true, if_false]
  exact gwApplyWrites_active g ws

/-- Claim C4: while the gate is false, any number of write-carrying ticks
leaves the active value of every field unchanged; on a gate-true tick the
whole pending shadow set becomes the active set in that one tick; and after
any tick the active set is either exactly the old active set or exactly the
pending shadow set — never a mixture, so a reader cannot observe a subset
of the pending writes applied. -/
theorem C4_gateway_atomic (g : Gateway) (steps : List (List (GWField × ℕ) × Bool))
    (ws : List (GWField × ℕ)) (gate : Bool)
    (hsteps : ∀ p ∈ steps, p.2 = false) :
    (gwRun g steps).active = g.active ∧
    (gwTick g ws true).active = (gwApplyWrites g ws).shadow ∧
    ((gwTick g ws gate).active = g.active ∨
     (gwTick g ws gate).active = (gwApplyWrites g ws).shadow) := by
  refine ⟨?_, rfl, ?_⟩
  · induction steps generalizing g with
    | nil => rfl
    | cons p rest ih =>
      obtain ⟨pws, pgate⟩ := p
      have hp : pgate = false := hsteps (pws, pgate) (List.mem_cons_self _ rest)
      subst hp
      simp only [gwRun]
      rw [ih (gwTick g pws false) (fun q hq => hsteps q (List.mem_cons_of_mem _ hq)),
          gwTick_closed]
  · cases gate
    · exact Or.inl (gwTick_closed g ws)
    · exact Or.inr rfl

theorem C4_gateway_atomic_witness :
    (gwRun ⟨fun _ => 0, fun _ => 0⟩ [([(GWField.commandedOutput, 7)], false)]).active =
      (⟨fun _ => 0, fun _ => 0⟩ : Gateway).active ∧
    (gwTick ⟨fun _ => 0, fun _ => 0⟩ [(GWField.commandedOutput, 7)] true).active =
      (gwApplyWrites ⟨fun _ => 0, fun _ => 0⟩ [(GWField.commandedOutput, 7)]).shadow :=
  have h := C4_gateway_atomic ⟨fun _ => 0, fun _ => 0⟩
    [([(GWField.commandedOutput, 7)], false)] [(GWField.commandedOutput, 7)] true
    (by intro p hp; fin_cases hp; rfl)
  ⟨h.1, h.2.1⟩

theorem blRun_append (s : BL) (l1 l2 : List BLIn) :
    blRun s (l1 ++ l2) = blRun (blRun s l1) l2 := by
  induction l1 generalizing s with
  | nil => rfl
  | cons i is ih => simp only [List.cons_append, blRun]; exact ih (blTick s i)

theorem strobeList_add (a b : ℕ) :
    strobeList (a + b) = strobeList a ++ strobeList b := by
  induction a with
  | zero => simp [strobeList]
  | succ n ih =>
    rw [Nat.succ_add]
    simp only [strobeList, ih, List.cons_append]

theorem blLoading_run (k : ℕ) : ∀ (N w : ℕ) (mem : ℕ → ℕ), w + k < N →
    ∃ m, blRun ⟨.LOADING, N, w, false, mem⟩ (strobeList k) = ⟨.LOADING, N, w + k, false, m⟩ := by
  induction k with
  | zero => intro N w mem h; exact ⟨mem, rfl⟩
  | succ n ih =>
    intro N w mem h
    have hlt : ¬ N ≤ w + 1 := by omega
    have h1 : blTick ⟨.LOADING, N, w, false, mem⟩ (strobeIn 0 0) =
        ⟨.LOADING, N, w + 1, true, fun x => if x = bramAddr 0 then 0 else mem x⟩ := by
      simp [blTick, strobeIn, hlt]
    have h2 : blTick ⟨.LOADING, N, w + 1, true, fun x => if x = bramAddr 0 then 0 else mem x⟩ gapIn =
        ⟨.LOADING, N, w + 1, false, fun x => if x = bramAddr 0 then 0 else mem x⟩ := by
      simp [blTick, gapIn]
    obtain ⟨m, hm⟩ := ih N (w + 1) (fun x => if x = bramAddr 0 then 0 else mem x) (by omega)
    refine ⟨m, ?_⟩
    simp only [strobeList, blRun, h1, h2]
    rw [hm]
    congr 1
    omega

/-- Claim C6: a start pulse with `word_count = 0` reaches DONE within one
tick and without any write strobe; for every `N > 0`, a start pulse with
`word_count = N` followed by `k < N` strobe events leaves `done` deasserted,
and after exactly the `N`-th strobe `done` is asserted. -/
theorem C6_loader_done (N k : ℕ) (hN : 0 < N) (hk : k < N) :
    (blRun blInit [startPulse 0]).st = .DONE ∧
    blDone (blRun blInit (startPulse N :: strobeList k)) = false ∧
    blDone (blRun blInit (startPulse N :: strobeList N)) = true := by
  have hstart : blTick blInit (startPulse N) = ⟨.LOADING, N, 0, false, fun _ => 0⟩ := by
    have hN0 : N ≠ 0 := by omega
    simp [blTick, blInit, blStart, startPulse, hN0]
  refine ⟨rfl, ?_, ?_⟩
  · show blDone (blRun (blTick blInit (startPulse N)) (strobeList k)) = false
    rw [hstart]
    obtain ⟨m, hm⟩ := blLoading_run k N 0 (fun _ => 0) (by omega)
    rw [show (0 + k : ℕ) = k by omega] at hm
    rw [hm]
    rfl
  · show blDone (blRun (blTick blInit (startPulse N)) (strobeList N)) = true
    rw [hstart]
    obtain ⟨M, rfl⟩ : ∃ M, N = M + 1 := ⟨N - 1, by omega⟩
    rw [strobeList_add M 1, blRun_append]
    obtain ⟨m, hm⟩ := blLoading_run M (M + 1) 0 (fun _ => 0) (by omega)
    rw [show (0 + M : ℕ) = M by omega] at hm
    rw [hm]
    have h1 : blTick ⟨.LOADING, M + 1, M, false, m⟩ (strobeIn 0 0) =
        ⟨.DONE, M + 1, M + 1, true, fun x => if x = bramAddr 0 then 0 else m x⟩ := by
      simp [blTick, strobeIn]
    have h2 : blTick ⟨.DONE, M + 1, M + 1, true, fun x => if x = bramAddr 0 then 0 else m x⟩ gapIn =
        ⟨.DONE, M + 1, M + 1, false, fun x => if x = bramAddr 0 then 0 else m x⟩ := by
      simp [blTick, gapIn]
    simp only [strobeList, blRun, h1, h2]
    rfl

theorem C6_loader_done_witness :
    blDone (blRun blInit (startPulse 2 :: strobeList 1)) = false ∧
    blDone (blRun blInit (startPulse 2 :: strobeList 2)) = true :=
  have h := C6_loader_done 2 1 (by norm_num) (by norm_num)
  ⟨h.2.1, h.2.2⟩

theorem bramAddr_le (a : ℕ) : bramAddr a ≤ ADDR_MASK := by
  unfold bramAddr ADDR_MASK
  omega

theorem blTick_mem_high (s : BL) (i : BLIn) (n : ℕ) (hn : ADDR_MASK < n) :
    (blTick s i).mem n = s.mem n := by
  have ha : n ≠ bramAddr i.addr := by
    have := bramAddr_le i.addr
    omega
  obtain ⟨st, t, w, p, m⟩ := s
  unfold blTick blStart blInit
  cases st <;> split_ifs <;> simp [ha] <;> split_ifs <;> simp [ha]

theorem blRun_mem_high (tr : List BLIn) : ∀ (s : BL) (n : ℕ), ADDR_MASK < n →
    (blRun s tr).mem n = s.mem n := by
  induction tr with
  | nil => intro s n _; rfl
  | cons i is ih =>
    intro s n hn
    simp only [blRun]
    rw [ih (blTick s i) n hn, blTick_mem_high s i n hn]

/-- Claim C7 counterexample: the test scenario of `test_max_address`
(`start(1)` then a strobe at address `0xFFF = 4095`) stores the data word at
address 4095 and completes the load — the write is accepted and forwarded,
not dropped, even though 4095 is far outside the claimed `[0, 1023]` range. -/
theorem C7_address_range_counterexample :
    (blRun blInit [startPulse 1, strobeIn 0xFFF 0x55555555, gapIn]).mem 4095 = 0x55555555 ∧
    (blRun blInit [startPulse 1, strobeIn 0xFFF 0x55555555, gapIn]).st = .DONE ∧
    bramAddr 0xFFF = 4095 ∧ 1023 < bramAddr 0xFFF := by
  refine ⟨rfl, rfl, rfl, by norm_num [bramAddr, ADDR_MASK]⟩

/-- Claim C7 (amended): the loader's write address is the Control11 field
truncated by the 12-bit `ADDR_MASK`, so it stays within `[0, 4095]` and no
input sequence ever writes outside the 4096-word backing range: every
memory cell above `ADDR_MASK` keeps its initial contents forever. -/
theorem C7_address_range_amended (tr : List BLIn) (n : ℕ) (hn : ADDR_MASK < n) (a : ℕ) :
    (blRun blInit tr).mem n = blInit.mem n ∧ bramAddr a ≤ ADDR_MASK :=
  ⟨blRun_mem_high tr blInit n hn, bramAddr_le a⟩

theorem C7_address_range_amended_witness :
    (blRun blInit [startPulse 1, strobeIn 0xFFF 0x55555555, gapIn]).mem 5000 =
      blInit.mem 5000 ∧ bramAddr 5000 ≤ ADDR_MASK :=
  C7_address_range_amended [startPulse 1, strobeIn 0xFFF 0x55555555, gapIn] 5000
    (by norm_num [ADDR_MASK]) 5000

theorem sysInv_init : SysInv sysInit := by
  norm_num [SysInv, sysInit, sample, ds1140Cfg, initPD, PDState.code, TelemetryConfig.step]

theorem sysInv_tick (cfg : PDConfig) (s : DS1140Sys) (i : PDInput) (h : SysInv s) :
    SysInv (sysTick cfg s i) := by
  obtain ⟨h1, h2, h3, h4⟩ := h
  cases hf : (pdTick cfg s.fsm i).state <;>
    simp [SysInv, sysTick, hf, sample, ds1140Cfg, PDState.code, TelemetryConfig.step] <;>
    norm_num
  constructor <;> linarith

theorem sysRun_inv (cfg : PDConfig) (tr : List PDInput) :
    SysInv (sysRun cfg sysInit tr) := by
  suffices h : ∀ s, SysInv s → SysInv (sysRun cfg s tr) from h sysInit sysInv_init
  induction tr with
  | nil => intro s hs; exact hs
  | cons i is ih =>
    intro s hs
    exact ih (sysTick cfg s i) (sysInv_tick cfg s i hs)

/-- Claim C8 counterexample: entering HARDFAULT directly from READY (a
reachable one-tick trace: the hard-fault condition asserts while the system
sits in its initial state) produces telemetry `-0.0 = 0.0`, which is exactly
READY's own telemetry value — so HARDFAULT and a normal-progress state are
not distinguishable by sign and magnitude in this reachable state. -/
theorem C8_distinguishability_counterexample :
    (sysTick testCfg sysInit hfIn).fsm.state = .HARDFAULT ∧
    sysInit.fsm.state = .READY ∧
    sysInit.tele = 0 ∧
    (sysTick testCfg sysInit hfIn).tele = sysInit.tele := by
  refine ⟨rfl, rfl, ?_, ?_⟩ <;>
    norm_num [sysTick, sysInit, sample, ds1140Cfg, pdTick, testCfg, hfIn, initPD,
      PDState.code, TelemetryConfig.step]

/-- Claim C8 (amended): for every reachable state of the DS1140 system,
TIMEDOUT telemetry is exactly +2.5 V while every normal-progress state
(codes 0-4) reads in [0, 2.0] V, and HARDFAULT telemetry is the sign-flipped
latch, hence ≤ 0 and strictly negative whenever the last latched normal
value was nonzero — so the three conditions are pairwise distinguishable by
sign and magnitude except in the single case where HARDFAULT was entered
with latch 0 (from READY), whose telemetry coincides with READY's 0 V. -/
theorem C8_distinguishability_amended (cfg : PDConfig) (tr : List PDInput) :
    ((sysRun cfg sysInit tr).fsm.state = .TIMEDOUT → (sysRun cfg sysInit tr).tele = 5/2) ∧
    ((sysRun cfg sysInit tr).fsm.state.code ≤ 4 →
      0 ≤ (sysRun cfg sysInit tr).tele ∧ (sysRun cfg sysInit tr).tele ≤ 2) ∧
    ((sysRun cfg sysInit tr).fsm.state = .HARDFAULT →
      (sysRun cfg sysInit tr).tele = -(sysRun cfg sysInit tr).prev ∧
      (sysRun cfg sysInit tr).tele ≤ 0 ∧
      ((sysRun cfg sysInit tr).prev ≠ 0 → (sysRun cfg sysInit tr).tele < 0)) := by
  obtain ⟨h1, h2, h3, h4⟩ := sysRun_inv cfg tr
  refine ⟨fun ht => ?_, fun hc => ?_, fun hh => ?_⟩
  · have hne : (sysRun cfg sysInit tr).fsm.state ≠ .HARDFAULT := by
      rw [ht]; intro hcon; cases hcon
    obtain ⟨he, _⟩ := h3 hne
    rw [he, ht]
    norm_num [PDState.code]
  · have hne : (sysRun cfg sysInit tr).fsm.state ≠ .HARDFAULT := by
      intro hcon
      rw [hcon] at hc
      norm_num [PDState.code] at hc
    obtain ⟨he, _⟩ := h3 hne
    have hcq : ((sysRun cfg sysInit tr).fsm.state.code : ℚ) ≤ 4 := by exact_mod_cast hc
    have hc0 : (0:ℚ) ≤ ((sysRun cfg sysInit tr).fsm.state.code : ℚ) := by positivity
    rw [he]
    constructor <;> linarith
  · have he := h4 hh
    refine ⟨he, by rw [he]; linarith, fun hp => ?_⟩
    rw [he]
    have : 0 < (sysRun cfg sysInit tr).prev := lt_of_le_of_ne h1 (Ne.symm hp)
    linarith

theorem C8_distinguishability_amended_witness :
    (sysRun testCfg sysInit [hfIn]).tele ≤ 0 :=
  ((C8_distinguishability_amended testCfg [hfIn]).2.2 rfl).2.1
